import Mathlib

/-!
Verification of the FileNinja core engine (`core.py`) through a shallow
embedding in Lean.

Conventions of the embedding:
* Python strings are `String` / `List Char`; `str.lower` is modelled on
  ASCII (the only case mapping the repository's data uses).
* The filesystem is an association list from full path strings to file
  sizes; `os.path.getsize` raising on a missing file is modelled by an
  `Option` lookup.
* `threading.Timer` objects are values carrying the path and event kind
  they were started with; a started timer's callback runs exactly when
  the timer was never cancelled, so the set of processing invocations is
  the set of created-and-never-cancelled timers.
* The external audit collaborator (`db_manager`) is abstracted to its
  observable behaviour at the call boundary in `core.py`: whether
  `connect()` succeeds and whether the `record` call raises; any
  exception is caught inside `log_file_movement`.
-/

/- ### Characters and strings -/

/-- ASCII model of Python `str.lower` on a single character
    (`core.py` only ever lowercases ASCII filenames and extensions). -/
def pyLowerChar (c : Char) : Char :=
  match c with
  | 'A' => 'a' | 'B' => 'b' | 'C' => 'c' | 'D' => 'd' | 'E' => 'e' | 'F' => 'f'
  | 'G' => 'g' | 'H' => 'h' | 'I' => 'i' | 'J' => 'j' | 'K' => 'k' | 'L' => 'l'
  | 'M' => 'm' | 'N' => 'n' | 'O' => 'o' | 'P' => 'p' | 'Q' => 'q' | 'R' => 'r'
  | 'S' => 's' | 'T' => 't' | 'U' => 'u' | 'V' => 'v' | 'W' => 'w' | 'X' => 'x'
  | 'Y' => 'y' | 'Z' => 'z'
  | c => c

/-- `str.lower` on the character list of a string. -/
def lowerL (l : List Char) : List Char := l.map pyLowerChar

/-- `str.lower` on a string. -/
def strLower (s : String) : String := String.mk (lowerL s.data)

/-- Index of the last occurrence of `c` (Python `str.rfind`),
    `none` when absent. -/
def lastIndexOf (c : Char) : List Char → Option Nat
  | [] => none
  | x :: xs =>
    match lastIndexOf c xs with
    | some i => some (i + 1)
    | none => if x = c then some 0 else none

/-- `os.path.basename` for POSIX paths: everything after the last `/`
    (`p[p.rfind('/')+1:]`). -/
def osBasenameL (l : List Char) : List Char :=
  match lastIndexOf '/' l with
  | none => l
  | some i => l.drop (i + 1)

/-- Split a character list on a separator character (like `str.split`). -/
def splitOnChar (sep : Char) : List Char → List (List Char)
  | [] => [[]]
  | c :: cs =>
    match splitOnChar sep cs with
    | [] => [[]]
    | g :: gs => if c = sep then [] :: g :: gs else (c :: g) :: gs

/-- `pathlib` keeps a path component iff it is neither empty nor `"."`. -/
def keepPart (g : List Char) : Bool := decide (g ≠ [] ∧ g ≠ ['.'])

/-- `pathlib.PurePosixPath(p).name`: the last retained component. -/
def pathlibNameL (l : List Char) : List Char :=
  ((splitOnChar '/' l).filter keepPart).getLastD []

/-- `pathlib` `suffix` of a final path component `name`:
    `name[i:]` for `i = name.rfind('.')` when `0 < i < len(name) - 1`,
    otherwise the empty string. -/
def nameSuffixL (name : List Char) : List Char :=
  match lastIndexOf '.' name with
  | none => []
  | some i => if 0 < i ∧ i < name.length - 1 then name.drop i else []

/-- `pathlib` `stem` of a final path component: the component without
    its suffix. -/
def stemL (name : List Char) : List Char :=
  match lastIndexOf '.' name with
  | none => name
  | some i => if 0 < i ∧ i < name.length - 1 then name.take i else name

/-- `Path(file_path).suffix` for a full path. -/
def pathSuffixL (l : List Char) : List Char := nameSuffixL (pathlibNameL l)

/-- `os.path.splitext(filename)[0]` for a separator-free filename:
    cut at the last dot unless every character before it is a dot. -/
def splitextRootL (name : List Char) : List Char :=
  match lastIndexOf '.' name with
  | none => name
  | some i => if (name.take i).all (fun c => c = '.') then name else name.take i

/-- Python substring containment (`needle in hay`). -/
def containsSub (needle : List Char) : List Char → Bool
  | [] => needle.isEmpty
  | c :: t => needle.isPrefixOf (c :: t) || containsSub needle t

/-- One position of the regex `(19|20)\d{2}`. -/
def yearAtHead (l : List Char) : Bool :=
  match l with
  | a :: b :: c :: d :: _ =>
    ((a = '1' && b = '9') || (a = '2' && b = '0')) && c.isDigit && d.isDigit
  | _ => false

/-- `re.search(r"(19|20)\d{2}", ·)` as a Boolean. -/
def hasYear : List Char → Bool
  | [] => false
  | a :: rest => yearAtHead (a :: rest) || hasYear rest

/-- The three-letter month abbreviations of the second date pattern. -/
def month_abbrevs : List String :=
  ["jan", "feb", "mar", "apr", "may", "jun", "jul", "aug", "sep", "oct", "nov", "dec"]

/-- `re.search(r"jan|feb|...|dec", ·)` as a Boolean. -/
def hasMonth (l : List Char) : Bool := month_abbrevs.any (fun m => containsSub m.data l)

/-- ASCII model of Python `str.title` (used as `priority_tag.title()`). -/
def pyTitleGo : Bool → List Char → List Char
  | _, [] => []
  | atStart, c :: rest =>
    if c.isAlpha then (if atStart then c.toUpper else c.toLower) :: pyTitleGo false rest
    else c :: pyTitleGo true rest

/-- `str.title` on a string. -/
def pyTitleStr (s : String) : String := String.mk (pyTitleGo true s.data)

/- ### Configuration and static tables (`_load_config`, `_get_file_type_mapping`,
    `_get_tag_rules`) -/

/-- The configuration snapshot used by `FileNinjaCore`
    (the fields the core engine reads). -/
structure Config where
  organized_folder : String
  watched_folders : List String
  ignore_patterns : List String
  max_file_size_mb : Nat

/-- The `ignore_patterns` entry of `default_config` in `_load_config`. -/
def default_ignore_patterns : List String :=
  ["*.tmp", "*.temp", "*.part", "*.crdownload", ".DS_Store", "Thumbs.db", "*.lock"]

/-- `_get_file_type_mapping`: extension (with dot) to category. -/
def file_type_mapping : List (String × String) :=
  [(".pdf", "PDFs"),
   (".doc", "Documents"), (".docx", "Documents"), (".txt", "Documents"),
   (".rtf", "Documents"), (".odt", "Documents"), (".xls", "Documents"),
   (".xlsx", "Documents"), (".csv", "Documents"), (".ppt", "Documents"),
   (".pptx", "Documents"),
   (".jpg", "Images"), (".jpeg", "Images"), (".png", "Images"),
   (".gif", "Images"), (".bmp", "Images"), (".svg", "Images"),
   (".webp", "Images"), (".tiff", "Images"),
   (".mp4", "Other"), (".avi", "Other"), (".mkv", "Other"),
   (".mov", "Other"), (".wmv", "Other"), (".webm", "Other"),
   (".mp3", "Other"), (".wav", "Other"), (".flac", "Other"),
   (".aac", "Other"), (".ogg", "Other"), (".m4a", "Other"),
   (".zip", "Other"), (".rar", "Other"), (".7z", "Other"),
   (".tar", "Other"), (".gz", "Other"),
   (".py", "Other"), (".js", "Other"), (".html", "Other"),
   (".css", "Other"), (".json", "Other"), (".xml", "Other"),
   (".exe", "Other"), (".msi", "Other")]

/-- `_get_tag_rules`: tag label to keyword list. -/
def tag_rules : List (String × List String) :=
  [("finance", ["invoice", "receipt", "bill", "payment", "tax", "bank", "statement"]),
   ("work", ["project", "meeting", "presentation", "report", "proposal", "contract"]),
   ("personal", ["family", "vacation", "holiday", "birthday", "photo", "travel"]),
   ("education", ["homework", "assignment", "exam", "notes", "lecture", "study"])]

/-- The fixed priority-tag order in `get_destination_folder`. -/
def priority_tags : List String := ["finance", "work", "personal", "education"]

/-- Python `dict.get` on an association table with distinct keys. -/
def lookupTable (table : List (String × String)) (key : String) : Option String :=
  (table.find? (fun e => decide (e.1 = key))).map (fun e => e.2)

/- ### Classifier (`get_file_tags`, `get_file_type`) -/

/-- `get_file_type` (core.py 174-177): lowercased `Path(...).suffix`
    looked up in the extension table, defaulting to `"Other"`. -/
def get_file_type (file_path : String) : String :=
  (lookupTable file_type_mapping (String.mk (lowerL (pathSuffixL file_path.data)))).getD "Other"

/-- Code-point lexicographic comparison of strings as character lists
    (the order Python `sorted` uses on strings). -/
def charListLt : List Char → List Char → Bool
  | [], [] => false
  | [], _ :: _ => true
  | _ :: _, [] => false
  | a :: as, b :: bs => if a = b then charListLt as bs else decide (a.toNat < b.toNat)

/-- Insert a string into a sorted duplicate-free list. -/
def insertSorted (s : String) : List String → List String
  | [] => [s]
  | x :: xs =>
    if s = x then x :: xs
    else if charListLt s.data x.data then s :: x :: xs
    else x :: insertSorted s xs

/-- `sorted(list(set(...)))`: sort lexicographically, dropping duplicates. -/
def sortedDedup (l : List String) : List String := l.foldr insertSorted []

/-- `get_file_tags` (core.py 146-171): keyword tags from the tag rules, a
    `type_<ext>` tag when an extension exists, and a `dated` tag from the
    two date regexes, returned sorted. -/
def get_file_tags (file_path : String) : List String :=
  let filename := lowerL (osBasenameL file_path.data)
  let nwe := splitextRootL filename
  let keywordTags := tag_rules.filterMap
    (fun r => if r.2.any (fun kw => containsSub kw.data nwe) then some r.1 else none)
  let ext := lowerL (pathSuffixL file_path.data)
  let typeTags := if ext.isEmpty then [] else ["type_" ++ String.mk (ext.drop 1)]
  let datedTags := if hasYear nwe || hasMonth nwe then ["dated"] else []
  sortedDedup (keywordTags ++ typeTags ++ datedTags)

/-- `get_destination_folder` (core.py 179-191), returning the full
    destination folder path as a string: the first priority tag present
    wins, otherwise the plain file-type folder is used. -/
def get_destination_folder (base_folder : String) (file_path : String)
    (tags : List String) : String :=
  match priority_tags.find? (fun t => decide (t ∈ tags)) with
  | some t => base_folder ++ "/" ++ (pyTitleStr t ++ "_Files")
  | none => base_folder ++ "/" ++ get_file_type file_path

/- ### Ignore filter (`should_ignore_file`, `should_process_file`) -/

/-- One iteration of the pattern loop in `should_ignore_file`:
    leading-star pattern checks `endswith`, trailing-star pattern checks
    `startswith`, otherwise plain substring containment. The filename has
    been lowercased; the pattern is used as configured. -/
def ignoreMatch (filename : List Char) (pat : List Char) : Bool :=
  (decide (pat.head? = some '*') && List.isSuffixOf (pat.drop 1) filename)
  || (decide (pat.getLast? = some '*') && List.isPrefixOf pat.dropLast filename)
  || containsSub pat filename

/-- `should_ignore_file` (core.py 237-250). -/
def should_ignore_file (patterns : List String) (file_path : String) : Bool :=
  let filename := lowerL (osBasenameL file_path.data)
  patterns.any (fun p => ignoreMatch filename p.data)

/- ### Filesystem abstraction -/

/-- The filesystem as an association list from full path strings to file
    sizes; every entry is a regular file. -/
abbrev Fs : Type := List (String × Nat)

/-- `os.path.getsize` / existence: size of the file at `p`, if present. -/
def fsSize (fs : Fs) (p : String) : Option Nat :=
  (List.find? (fun e => decide (e.1 = p)) fs).map (fun e => e.2)

/-- Remove the file at `p`. -/
def fsErase (fs : Fs) (p : String) : Fs :=
  List.filter (fun e => decide (e.1 ≠ p)) fs

/-- Create/overwrite the file at `p` with size `n`. -/
def fsInsert (fs : Fs) (p : String) (n : Nat) : Fs :=
  (p, n) :: fsErase fs p

/-- `should_process_file` (core.py 252-265): ignore filter, then the size
    ceiling; `os.path.getsize` raising on a vanished file is caught and
    yields `false`. -/
def should_process_file (cfg : Config) (fs : Fs) (file_path : String) : Bool :=
  if should_ignore_file cfg.ignore_patterns file_path then false
  else
    match fsSize fs file_path with
    | none => false
    | some sz => decide (sz ≤ cfg.max_file_size_mb * 1024 * 1024)

/- ### Conflict resolution (`handle_filename_conflict`) -/

/-- A `pathlib.Path` value as used by `move_file`: a parent folder and a
    final component. -/
structure PPath where
  parent : String
  name : String
deriving DecidableEq

/-- `str(path)`: render a path as the string the filesystem is keyed by. -/
def renderP (p : PPath) : String := p.parent ++ "/" ++ p.name

/-- The candidate `parent / f"{base}_{counter}{suffix}"`. -/
def numberedCandidate (parent base sfx : String) (counter : Nat) : PPath :=
  ⟨parent, base ++ "_" ++ toString counter ++ sfx⟩

/-- The `while counter <= 1000` loop of `handle_filename_conflict`,
    with the remaining number of iterations as fuel. -/
def conflictSearch (e : PPath → Bool) (parent base sfx : String) :
    Nat → Nat → Option PPath
  | _, 0 => none
  | counter, fuel + 1 =>
    let p := numberedCandidate parent base sfx counter
    if e p = false then some p
    else conflictSearch e parent base sfx (counter + 1) fuel

/-- `handle_filename_conflict` (core.py 193-212). `e` is path existence
    on the filesystem at call time; `ts` is `datetime.now().strftime("%Y%m%d_%H%M%S")`. -/
def handle_filename_conflict (e : PPath → Bool) (ts : String) (dest : PPath) : PPath :=
  if e dest = false then dest
  else
    let base := String.mk (stemL dest.name.data)
    let sfx := String.mk (nameSuffixL dest.name.data)
    match conflictSearch e dest.parent base sfx 1 1000 with
    | some p => p
    | none => ⟨dest.parent, base ++ "_" ++ ts ++ sfx⟩

/- ### Relocator (`move_file`) and audit boundary (`log_file_movement`) -/

/-- `move_file` (core.py 214-234): check the source, pick the destination
    folder, resolve conflicts, move. Returns the new filesystem, the
    success flag and `str(dest_path)` (empty on failure), mirroring the
    `(bool, str, message)` triple. -/
def move_file (cfg : Config) (ts : String) (fs : Fs) (tags : List String)
    (source_path : String) : Fs × Bool × String :=
  match fsSize fs source_path with
  | none => (fs, false, "")
  | some sz =>
    let dest_folder := get_destination_folder cfg.organized_folder source_path tags
    let dest0 : PPath := ⟨dest_folder, String.mk (pathlibNameL source_path.data)⟩
    let dest := handle_filename_conflict (fun p => (fsSize fs (renderP p)).isSome) ts dest0
    let fs' := fsInsert (fsErase fs source_path) (renderP dest) sz
    (fs', true, renderP dest)

/-- Observable behaviour of the external audit collaborator
    (`db_manager.DatabaseManager`) at the `core.py` call boundary:
    whether `connect()` returns true and whether the `record` call
    (`db.log_file_movement`) raises. -/
structure Audit where
  connectOk : Bool
  recordRaises : Bool

/-- The argument tuple of one invocation of the audit collaborator's
    `record` operation. -/
structure MoveRecord where
  original_name : String
  new_path : String
  file_type : String
  file_size : Nat
  tags : List String
deriving DecidableEq

/-- `log_file_movement` (core.py 291-306): when the collaborator accepts
    the connection, `record` is invoked once with the basename, the new
    path, the file type, the size re-read from the *source* path (0 when
    it no longer exists), and the tags. The surrounding `try/except`
    swallows every collaborator failure, so the returned invocation list
    is the only observable effect. -/
def log_file_movement (audit : Audit) (fs : Fs) (source_path dest_path : String)
    (tags : List String) : List MoveRecord :=
  if audit.connectOk then
    [{ original_name := String.mk (osBasenameL source_path.data),
       new_path := dest_path,
       file_type := get_file_type source_path,
       file_size := (fsSize fs source_path).getD 0,
       tags := tags }]
  else []

/-- `process_file` (core.py 267-289): filter, tag, move, and on success
    log to the audit collaborator. Returns the new filesystem, the audit
    invocations, and the destination on success. The event kind is only
    printed by the source, so it does not influence the result. -/
def process_file (cfg : Config) (audit : Audit) (ts : String) (fs : Fs)
    (file_path : String) (_event_type : String) : Fs × List MoveRecord × Option String :=
  if should_process_file cfg fs file_path = false then (fs, [], none)
  else
    let tags := get_file_tags file_path
    let r := move_file cfg ts fs tags file_path
    if r.2.1 then (r.1, log_file_movement audit r.1 file_path r.2.2 tags, some r.2.2)
    else (r.1, [], none)

/- ### Debounced event coordinator and watch session -/

/-- A started `threading.Timer` with the processing arguments it carries. -/
structure Timer where
  tid : Nat
  path : String
  kind : String
deriving DecidableEq

/-- The mutable bookkeeping of `FileNinjaCore`: the pending map
    (`pending_files`), every timer ever started, the cancelled timer ids,
    a fresh-id counter, the running flag and the registered watch roots
    (`watched_paths` keys). -/
structure CoreState where
  pending : List (String × Timer)
  created : List Timer
  cancelled : List Nat
  nextId : Nat
  is_running : Bool
  watched_paths : List String
deriving DecidableEq

/-- The freshly constructed core: empty bookkeeping, not running. -/
def initCoreState : CoreState :=
  { pending := [], created := [], cancelled := [], nextId := 0,
    is_running := false, watched_paths := [] }

/-- Python dict lookup in the pending map. -/
def assocLookup (l : List (String × Timer)) (k : String) : Option Timer :=
  (List.find? (fun e => decide (e.1 = k)) l).map (fun e => e.2)

/-- Remove the entry for key `k` from the pending map. -/
def assocErase (l : List (String × Timer)) (k : String) : List (String × Timer) :=
  List.filter (fun e => decide (e.1 ≠ k)) l

/-- `schedule_file_processing` (core.py 326-338): cancel the pending
    timer for the path when present, then store and start a fresh timer
    carrying the latest event kind. -/
def schedule_file_processing (st : CoreState) (file_path event_type : String) : CoreState :=
  let t : Timer := ⟨st.nextId, file_path, event_type⟩
  { st with
    pending := assocErase st.pending file_path ++ [(file_path, t)],
    created := st.created ++ [t],
    cancelled :=
      match assocLookup st.pending file_path with
      | some old => old.tid :: st.cancelled
      | none => st.cancelled,
    nextId := st.nextId + 1 }

/-- Deliver a burst of notifications for one path, in order; each arrives
    before the previous timer's quiet period elapses, so no timer fires
    in between. -/
def notify_burst (st : CoreState) (path : String) : List String → CoreState
  | [] => st
  | k :: ks => notify_burst (schedule_file_processing st path k) path ks

/-- Elapse of a started timer `t`: a cancelled timer's callback never
    runs; otherwise `process_file` runs with the stored arguments. The
    source's `process_file` does not touch `pending_files` or any other
    coordinator field, so the bookkeeping is returned unchanged. -/
def fire_timer (cfg : Config) (audit : Audit) (ts : String) (st : CoreState)
    (fs : Fs) (t : Timer) : CoreState × Fs × List MoveRecord :=
  if decide (t.tid ∈ st.cancelled) then (st, fs, [])
  else
    let r := process_file cfg audit ts fs t.path t.kind
    (st, r.1, r.2.1)

/-- The timers whose callbacks run once their delay elapses: started and
    never cancelled. -/
def uncancelled_firings (st : CoreState) : List Timer :=
  st.created.filter (fun t => !(decide (t.tid ∈ st.cancelled)))

/-- The processing invocations for one path. -/
def firingsFor (st : CoreState) (path : String) : List Timer :=
  st.created.filter (fun t => !(decide (t.tid ∈ st.cancelled)) && decide (t.path = path))

/-- `stop_watching` (core.py 371-390): a no-op unless running; otherwise
    stop the observer, cancel every pending timer and clear the pending
    map (`watched_paths` is left as is, as in the source). -/
def stop_watching (st : CoreState) : CoreState :=
  if st.is_running = false then st
  else
    { st with
      is_running := false,
      cancelled := st.pending.map (fun e => e.2.tid) ++ st.cancelled,
      pending := [] }

/-- The folder-registration loop of `start_watching`: each configured
    root that exists is scheduled with the observer and recorded in
    `watched_paths`; missing roots are skipped with a warning. -/
def registerRoots (dirExists : String → Bool) : List String → List String → List String
  | [], acc => acc
  | f :: rest, acc =>
    registerRoots dirExists rest
      (if dirExists f then (if decide (f ∈ acc) then acc else acc ++ [f]) else acc)

/-- `start_watching` (core.py 341-369): refuse when already running;
    register the configured roots that exist; fail iff the registration
    map is empty, otherwise start the observer and report success. -/
def start_watching (dirExists : String → Bool) (cfg : Config) (st : CoreState) :
    Bool × CoreState :=
  if st.is_running then (false, st)
  else
    let wp := registerRoots dirExists cfg.watched_folders st.watched_paths
    if wp.isEmpty then (false, { st with watched_paths := wp })
    else (true, { st with watched_paths := wp, is_running := true })

/-- The `pending_files` entry of `get_status` (core.py 392-400). -/
def get_status_pending (st : CoreState) : Nat := st.pending.length

/- ### Basic lemmas about the embedding -/

theorem registerRoots_eq_nil_iff (d : String → Bool) :
    ∀ (folders acc : List String),
      registerRoots d folders acc = [] ↔ acc = [] ∧ ∀ f ∈ folders, d f = false := by
  intro folders
  induction folders with
  | nil => intro acc; simp [registerRoots]
  | cons f rest ih =>
    intro acc
    simp only [registerRoots]
    rw [ih]
    constructor
    · rintro ⟨hacc, hall⟩
      by_cases hd : d f = true
      · rw [if_pos hd] at hacc
        by_cases hc : f ∈ acc
        · rw [if_pos (decide_eq_true hc)] at hacc
          subst hacc
          exact absurd hc (List.not_mem_nil f)
        · rw [if_neg (by simpa using hc)] at hacc
          exact absurd hacc (by simp)
      · rw [if_neg hd] at hacc
        refine ⟨hacc, ?_⟩
        intro g hg
        rcases List.mem_cons.mp hg with h | h
        · subst h; exact Bool.eq_false_iff.mpr hd
        · exact hall g h
    · rintro ⟨hacc, hall⟩
      subst hacc
      have hdf : d f = false := hall f (List.mem_cons_self f rest)
      rw [hdf]
      exact ⟨by simp, fun g hg => hall g (List.mem_cons_of_mem f hg)⟩

/- ### Claim C2: start succeeds iff some configured root exists -/

/-- Claim C2: from a fresh session, `start_watching` returns `true`
    exactly when at least one configured root exists; non-existing roots
    are skipped non-fatally, and `false` is returned only when zero roots
    could be registered. -/
theorem start_watching_true_iff (d : String → Bool) (cfg : Config) :
    (start_watching d cfg initCoreState).1 = true ↔
      ∃ f ∈ cfg.watched_folders, d f = true := by
  have hrun : initCoreState.is_running = false := rfl
  simp only [start_watching, hrun, Bool.false_eq_true, if_false]
  by_cases h : (registerRoots d cfg.watched_folders initCoreState.watched_paths).isEmpty
  · rw [if_pos h]
    rw [List.isEmpty_iff, registerRoots_eq_nil_iff] at h
    simp only [show ((false : Bool) = true) ↔ False by simp, false_iff]
    rintro ⟨f, hf, hd⟩
    rw [h.2 f hf] at hd
    exact Bool.false_ne_true hd
  · rw [if_neg h]
    simp only [show ((true : Bool) = true) ↔ True by simp, true_iff]
    rw [List.isEmpty_iff, registerRoots_eq_nil_iff] at h
    have hne : ¬ ∀ f ∈ cfg.watched_folders, d f = false := fun hall => h ⟨rfl, hall⟩
    push_neg at hne
    obtain ⟨f, hf, hd⟩ := hne
    exact ⟨f, hf, by simpa using hd⟩

/-- Witness for C2: a configuration whose second root exists. -/
theorem start_watching_true_iff_witness :
    (start_watching (fun f => decide (f = "w"))
      ⟨"Organized_Files", ["missing", "w"], [], 1000⟩ initCoreState).1 = true :=
  (start_watching_true_iff (fun f => decide (f = "w"))
      ⟨"Organized_Files", ["missing", "w"], [], 1000⟩).mpr ⟨"w", by decide, by decide⟩

/- ### Claim C3: the ignore-pattern example behaviour -/

/-- Claim C3 (code bug): the glob shapes behave as specified
    (`"*.tmp"` matches `"download.tmp"`, `"~*"` matches `"~lockfile"`),
    but the plain-substring pattern `"Thumbs.db"` matches neither
    `"Thumbs.db"` nor `"xThumbs.dby"`, because `should_ignore_file`
    lowercases the filename while comparing against the raw pattern. -/
theorem ignore_pattern_case_mismatch :
    should_ignore_file default_ignore_patterns "download.tmp" = true
  ∧ should_ignore_file ["~*"] "~lockfile" = true
  ∧ should_ignore_file default_ignore_patterns "Thumbs.db" = false
  ∧ should_ignore_file default_ignore_patterns "xThumbs.dby" = false := by
  refine ⟨rfl, rfl, ?_, ?_⟩ <;> decide

/- ### Claim C5: the invoice_2023.pdf scenario -/

/-- Claim C5: `invoice_2023.pdf` is tagged exactly
    `["dated", "finance", "type_pdf"]` and, because `finance` is a
    priority tag, is routed to `<destination_root>/Finance_Files`
    rather than the plain `PDFs` category folder. -/
theorem invoice_pdf_classification (base : String) :
    get_file_tags "invoice_2023.pdf" = ["dated", "finance", "type_pdf"]
  ∧ get_destination_folder base "invoice_2023.pdf" (get_file_tags "invoice_2023.pdf")
      = base ++ "/Finance_Files" := by
  refine ⟨rfl, ?_⟩
  have h : get_destination_folder base "invoice_2023.pdf" (get_file_tags "invoice_2023.pdf")
      = base ++ "/" ++ "Finance_Files" := rfl
  rw [h, String.append_assoc]
  rfl

/- ### Claim C1: the pending map after a fired timer -/

/-- Configuration used by the concrete coordinator scenarios. -/
def exampleConfig : Config :=
  ⟨"Organized_Files", ["w"], default_ignore_patterns, 1000⟩

/-- Coordinator state after one notification for `w/report.txt`. -/
def c1State : CoreState :=
  schedule_file_processing initCoreState "w/report.txt" "created"

/-- Result of the (uncancelled) timer for `w/report.txt` firing. -/
def c1Result : CoreState × Fs × List MoveRecord :=
  fire_timer exampleConfig ⟨true, false⟩ "ts" c1State
    [("w/report.txt", 100)] ⟨0, "w/report.txt", "created"⟩

/-- Claim C1 (code bug): after the debounce timer for `w/report.txt`
    fires uncancelled and the relocation completes successfully (the file
    is gone from the source path and present at the destination), the
    path is still in the pending map and still counted by `get_status`:
    `process_file` never removes it, contradicting the claimed
    return-to-Idle bookkeeping. -/
theorem fired_path_stays_in_pending_map :
    (assocLookup c1Result.1.pending "w/report.txt").isSome = true
  ∧ get_status_pending c1Result.1 = 1
  ∧ fsSize c1Result.2.1 "w/report.txt" = none
  ∧ fsSize c1Result.2.1 "Organized_Files/Work_Files/report.txt" = some 100 := by
  refine ⟨rfl, rfl, ?_, ?_⟩ <;> decide

/- ### Claim C8: stop cancels every pending timer -/

/-- Claim C8: stopping a running session empties the pending map, records
    every previously pending timer as cancelled, and (when every started
    timer was still pending or already cancelled, as in the three-pending
    scenario) leaves no timer whose callback will ever run, so none of
    the pending files is moved. -/
theorem stop_watching_cancels (st : CoreState) (hrun : st.is_running = true) :
    (stop_watching st).pending = []
  ∧ (∀ e ∈ st.pending, e.2.tid ∈ (stop_watching st).cancelled)
  ∧ ((∀ t ∈ st.created, (∃ e ∈ st.pending, e.2 = t) ∨ t.tid ∈ st.cancelled) →
      uncancelled_firings (stop_watching st) = []) := by
  have hcond : (st.is_running = false) = False := by simp [hrun]
  refine ⟨?_, ?_, ?_⟩
  · simp only [stop_watching, hcond, if_false]
  · intro e he
    simp only [stop_watching, hcond, if_false]
    exact List.mem_append_left _ (List.mem_map_of_mem (fun e => e.2.tid) he)
  · intro hall
    simp only [stop_watching, uncancelled_firings, hcond, if_false]
    apply List.filter_eq_nil_iff.mpr
    intro t ht
    rcases hall t ht with ⟨e, he, het⟩ | hc
    · subst het
      have hmem : e.2.tid ∈ st.pending.map (fun e => e.2.tid) ++ st.cancelled :=
        List.mem_append_left _ (List.mem_map_of_mem (fun e => e.2.tid) he)
      simp [hmem]
    · have hmem : t.tid ∈ st.pending.map (fun e => e.2.tid) ++ st.cancelled :=
        List.mem_append_right _ hc
      simp [hmem]

/-- A running session with three pending timers, as in the spec's
    stop scenario. -/
def c8State : CoreState :=
  { pending := [("w/a.txt", ⟨0, "w/a.txt", "created"⟩),
                ("w/b.txt", ⟨1, "w/b.txt", "created"⟩),
                ("w/c.txt", ⟨2, "w/c.txt", "moved"⟩)],
    created := [⟨0, "w/a.txt", "created"⟩, ⟨1, "w/b.txt", "created"⟩,
                ⟨2, "w/c.txt", "moved"⟩],
    cancelled := [], nextId := 3, is_running := true, watched_paths := ["w"] }

/-- Witness for C8: the three-pending-timer scenario ends with an empty
    pending map and no timer left to fire. -/
theorem stop_watching_cancels_witness :
    (stop_watching c8State).pending = []
  ∧ uncancelled_firings (stop_watching c8State) = [] := by
  have h := stop_watching_cancels c8State rfl
  exact ⟨h.1, h.2.2 (by decide)⟩

/- ### Claim C4: debouncing a notification burst -/

/-- Bookkeeping invariant of the coordinator: every cancelled id and
    every pending timer id was issued before the current counter. -/
def CoordInv (st : CoreState) : Prop :=
  (∀ i ∈ st.cancelled, i < st.nextId) ∧ (∀ e ∈ st.pending, e.2.tid < st.nextId)

theorem assocErase_find?_none (l : List (String × Timer)) (k : String) :
    List.find? (fun e => decide (e.1 = k)) (assocErase l k) = none := by
  apply List.find?_eq_none.mpr
  intro e he
  rw [assocErase, List.mem_filter] at he
  simpa using he.2

theorem schedule_pending_lookup (st : CoreState) (path kind : String) :
    assocLookup (schedule_file_processing st path kind).pending path
      = some ⟨st.nextId, path, kind⟩ := by
  simp only [schedule_file_processing, assocLookup]
  simp [List.find?_append, assocErase_find?_none, List.find?]

theorem assocLookup_tid_lt (st : CoreState) (path : String) (t : Timer)
    (hInv : CoordInv st) (h : assocLookup st.pending path = some t) :
    t.tid < st.nextId := by
  rw [assocLookup] at h
  rcases Option.map_eq_some'.mp h with ⟨e, he, het⟩
  subst het
  exact hInv.2 e (List.mem_of_find?_eq_some he)

theorem schedule_inv (st : CoreState) (path kind : String) (hInv : CoordInv st) :
    CoordInv (schedule_file_processing st path kind) := by
  constructor
  · intro i hi
    rcases hl : assocLookup st.pending path with _ | old
    · simp only [schedule_file_processing, hl] at hi
      exact Nat.lt_succ_of_lt (hInv.1 i hi)
    · simp only [schedule_file_processing, hl] at hi
      rcases List.mem_cons.mp hi with h | h
      · subst h
        exact Nat.lt_succ_of_lt (assocLookup_tid_lt st path old hInv hl)
      · exact Nat.lt_succ_of_lt (hInv.1 i h)
  · intro e he
    simp only [schedule_file_processing] at he
    rcases List.mem_append.mp he with h | h
    · rw [assocErase, List.mem_filter] at h
      exact Nat.lt_succ_of_lt (hInv.2 e h.1)
    · rcases List.mem_singleton.mp h with rfl
      exact Nat.lt_succ_self _

theorem schedule_firingsFor (st : CoreState) (path kind : String) (hInv : CoordInv st)
    (hsingle : (assocLookup st.pending path = none ∧ firingsFor st path = []) ∨
      (∃ t0, assocLookup st.pending path = some t0 ∧ firingsFor st path = [t0])) :
    firingsFor (schedule_file_processing st path kind) path
      = [⟨st.nextId, path, kind⟩] := by
  rcases hsingle with ⟨hl, hf⟩ | ⟨t0, hl, hf⟩
  · simp only [firingsFor, schedule_file_processing, hl]
    rw [List.filter_append]
    have hA : st.created.filter
        (fun t => !(decide (t.tid ∈ st.cancelled)) && decide (t.path = path)) = [] := by
      apply List.filter_eq_nil_iff.mpr
      intro u hu
      by_cases hp : u.path = path
      · by_cases hc : u.tid ∈ st.cancelled
        · simp [hc]
        · exfalso
          have hmem : u ∈ firingsFor st path :=
            List.mem_filter.mpr ⟨hu, by simp [hc, hp]⟩
          rw [hf] at hmem
          exact absurd hmem (List.not_mem_nil u)
      · simp [hp]
    rw [hA]
    have hB : ¬ st.nextId ∈ st.cancelled := fun hmem =>
      absurd (hInv.1 _ hmem) (lt_irrefl _)
    simp [List.filter, hB]
  · simp only [firingsFor, schedule_file_processing, hl]
    rw [List.filter_append]
    have hA : st.created.filter
        (fun t => !(decide (t.tid ∈ t0.tid :: st.cancelled)) && decide (t.path = path)) = [] := by
      apply List.filter_eq_nil_iff.mpr
      intro u hu
      by_cases hp : u.path = path
      · by_cases hc : u.tid ∈ st.cancelled
        · simp [List.mem_cons_of_mem _ hc]
        · have hmem : u ∈ firingsFor st path :=
            List.mem_filter.mpr ⟨hu, by simp [hc, hp]⟩
          rw [hf] at hmem
          rcases List.mem_singleton.mp hmem with rfl
          simp
      · simp [hp]
    rw [hA]
    have hB : ¬ st.nextId ∈ t0.tid :: st.cancelled := by
      intro hmem
      rcases List.mem_cons.mp hmem with h | h
      · exact absurd (h ▸ assocLookup_tid_lt st path t0 hInv hl) (lt_irrefl _)
      · exact absurd (hInv.1 _ h) (lt_irrefl _)
    simp [List.filter, hB]

theorem notify_burst_firings :
    ∀ (ks : List String) (st : CoreState) (path : String), CoordInv st →
      ((assocLookup st.pending path = none ∧ firingsFor st path = []) ∨
        (∃ t0, assocLookup st.pending path = some t0 ∧ firingsFor st path = [t0])) →
      ∀ (h : ks ≠ []),
        ∃ t : Timer, assocLookup (notify_burst st path ks).pending path = some t
          ∧ firingsFor (notify_burst st path ks) path = [t]
          ∧ t.kind = ks.getLast h ∧ t.path = path := by
  intro ks
  induction ks with
  | nil => intro st path _ _ h; exact absurd rfl h
  | cons k ks ih =>
    intro st path hInv hsingle h
    by_cases hks : ks = []
    · subst hks
      refine ⟨⟨st.nextId, path, k⟩, ?_, ?_, rfl, rfl⟩
      · exact schedule_pending_lookup st path k
      · exact schedule_firingsFor st path k hInv hsingle
    · have hstep := schedule_firingsFor st path k hInv hsingle
      obtain ⟨t, h1, h2, h3, h4⟩ :=
        ih (schedule_file_processing st path k) path
          (schedule_inv st path k hInv)
          (Or.inr ⟨⟨st.nextId, path, k⟩, schedule_pending_lookup st path k, hstep⟩) hks
      refine ⟨t, h1, h2, ?_, h4⟩
      rw [h3]
      exact (List.getLast_cons hks).symm

/-- Claim C4: a burst of `N ≥ 1` notifications for one path, each
    arriving inside the previous quiet period, leaves exactly one timer
    whose callback will run, and it carries the event kind of the last
    notification (the others were cancelled by the cancel-and-replace
    discipline). -/
theorem debounced_burst_single_processing (path : String) (ks : List String)
    (h : ks ≠ []) :
    ∃ t : Timer,
      assocLookup (notify_burst initCoreState path ks).pending path = some t
      ∧ firingsFor (notify_burst initCoreState path ks) path = [t]
      ∧ t.kind = ks.getLast h ∧ t.path = path :=
  notify_burst_firings ks initCoreState path
    ⟨fun i hi => absurd hi (List.not_mem_nil i),
     fun e he => absurd he (List.not_mem_nil e)⟩
    (Or.inl ⟨rfl, rfl⟩) h

/-- Witness for C4: two rapid notifications for one path produce exactly
    one processing invocation, carrying the second kind. -/
theorem debounced_burst_single_processing_witness :
    ∃ t : Timer,
      assocLookup (notify_burst initCoreState "w/f.txt" ["created", "moved"]).pending
        "w/f.txt" = some t
      ∧ firingsFor (notify_burst initCoreState "w/f.txt" ["created", "moved"]) "w/f.txt" = [t]
      ∧ t.kind = "moved" ∧ t.path = "w/f.txt" :=
  debounced_burst_single_processing "w/f.txt" ["created", "moved"] (by decide)

/- ### Claim C6: conflict resolution -/

theorem stemL_append_nameSuffixL (n : List Char) : stemL n ++ nameSuffixL n = n := by
  unfold stemL nameSuffixL
  cases h : lastIndexOf '.' n with
  | none => simp
  | some i =>
    by_cases hc : 0 < i ∧ i < n.length - 1
    · simp only [hc, if_true, and_self]
      exact List.take_append_drop i n
    · simp [hc]

theorem conflictSearch_eq_none_iff (e : PPath → Bool) (parent base sfx : String) :
    ∀ (fuel counter : Nat),
      conflictSearch e parent base sfx counter fuel = none ↔
        ∀ k, k < fuel → e (numberedCandidate parent base sfx (counter + k)) = true := by
  intro fuel
  induction fuel with
  | zero => intro c; simp [conflictSearch]
  | succ n ih =>
    intro c
    simp only [conflictSearch]
    by_cases hc : e (numberedCandidate parent base sfx c) = false
    · rw [if_pos hc]
      constructor
      · intro hsome; exact absurd hsome (by simp)
      · intro hall
        have h0 := hall 0 (Nat.succ_pos n)
        rw [Nat.add_zero] at h0
        rw [h0] at hc
        exact absurd hc (by simp)
    · rw [if_neg hc]
      rw [ih (c + 1)]
      constructor
      · intro hall k hk
        cases k with
        | zero =>
          rw [Nat.add_zero]
          exact Bool.eq_true_of_not_eq_false hc
        | succ m =>
          have := hall m (Nat.lt_of_succ_lt_succ hk)
          rwa [show c + 1 + m = c + (m + 1) by omega] at this
      · intro hall k hk
        have := hall (k + 1) (Nat.succ_lt_succ hk)
        rwa [show c + (k + 1) = c + 1 + k by omega] at this

theorem conflictSearch_eq_some (e : PPath → Bool) (parent base sfx : String) :
    ∀ (fuel counter : Nat) (p : PPath),
      conflictSearch e parent base sfx counter fuel = some p →
        ∃ k, k < fuel ∧ p = numberedCandidate parent base sfx (counter + k)
          ∧ e p = false
          ∧ ∀ j, j < k → e (numberedCandidate parent base sfx (counter + j)) = true := by
  intro fuel
  induction fuel with
  | zero => intro c p h; exact absurd h (by simp [conflictSearch])
  | succ n ih =>
    intro c p h
    simp only [conflictSearch] at h
    by_cases hc : e (numberedCandidate parent base sfx c) = false
    · rw [if_pos hc] at h
      rcases Option.some.inj h with rfl
      exact ⟨0, Nat.succ_pos n, by rw [Nat.add_zero], hc,
        fun j hj => absurd hj (Nat.not_lt_zero j)⟩
    · rw [if_neg hc] at h
      obtain ⟨k, hk, hp, he, hall⟩ := ih (c + 1) p h
      refine ⟨k + 1, Nat.succ_lt_succ hk, ?_, he, ?_⟩
      · rwa [show c + 1 + k = c + (k + 1) by omega] at hp
      · intro j hj
        cases j with
        | zero =>
          rw [Nat.add_zero]
          exact Bool.eq_true_of_not_eq_false hc
        | succ m =>
          have := hall m (Nat.lt_of_succ_lt_succ hj)
          rwa [show c + 1 + m = c + (m + 1) by omega] at this

/-- Claim C6: `handle_filename_conflict` returns a non-existing
    destination unchanged; on an existing destination it never returns
    that same path, it returns the first available among
    `<stem>_1 … <stem>_1000` (suffix preserved) when one is available at
    or before a given index, and when all 1000 numbered candidates exist
    it falls back to `<stem>_<timestamp><suffix>` without re-checking
    availability. -/
theorem handle_filename_conflict_spec (e : PPath → Bool) (ts : String) (dest : PPath) :
    (e dest = false → handle_filename_conflict e ts dest = dest)
  ∧ (e dest = true → handle_filename_conflict e ts dest ≠ dest)
  ∧ (e dest = true → ∀ i, i < 1000 →
      e (numberedCandidate dest.parent (String.mk (stemL dest.name.data))
          (String.mk (nameSuffixL dest.name.data)) (i + 1)) = false →
      ∃ j, j ≤ i
        ∧ e (numberedCandidate dest.parent (String.mk (stemL dest.name.data))
            (String.mk (nameSuffixL dest.name.data)) (j + 1)) = false
        ∧ (∀ m, m < j → e (numberedCandidate dest.parent (String.mk (stemL dest.name.data))
            (String.mk (nameSuffixL dest.name.data)) (m + 1)) = true)
        ∧ handle_filename_conflict e ts dest
            = numberedCandidate dest.parent (String.mk (stemL dest.name.data))
                (String.mk (nameSuffixL dest.name.data)) (j + 1))
  ∧ (e dest = true →
      (∀ i, i < 1000 →
        e (numberedCandidate dest.parent (String.mk (stemL dest.name.data))
            (String.mk (nameSuffixL dest.name.data)) (i + 1)) = true) →
      handle_filename_conflict e ts dest
        = ⟨dest.parent, String.mk (stemL dest.name.data) ++ "_" ++ ts
            ++ String.mk (nameSuffixL dest.name.data)⟩) := by
  have hname : String.mk (stemL dest.name.data) ++ String.mk (nameSuffixL dest.name.data)
      = dest.name := by
    apply String.ext
    rw [String.data_append]
    exact stemL_append_nameSuffixL dest.name.data
  refine ⟨?_, ?_, ?_, ?_⟩
  · intro h
    simp [handle_filename_conflict, h]
  · intro h
    simp only [handle_filename_conflict, h]
    rw [if_neg (by simp)]
    rcases hs : conflictSearch e dest.parent (String.mk (stemL dest.name.data))
        (String.mk (nameSuffixL dest.name.data)) 1 1000 with _ | p
    · simp only [hs]
      intro heq
      have hn := congrArg PPath.name heq
      simp only at hn
      have h1 := congrArg String.length hn
      have h2 := congrArg String.length hname
      simp only [String.length_append] at h1 h2
      have h3 : ("_" : String).length = 1 := rfl
      omega
    · simp only [hs]
      obtain ⟨k, _, _, he, _⟩ := conflictSearch_eq_some e dest.parent _ _ 1000 1 p hs
      intro heq
      rw [heq] at he
      rw [h] at he
      exact absurd he (by simp)
  · intro h i hi hfree
    simp only [handle_filename_conflict, h]
    rw [if_neg (by simp)]
    rcases hs : conflictSearch e dest.parent (String.mk (stemL dest.name.data))
        (String.mk (nameSuffixL dest.name.data)) 1 1000 with _ | p
    · exfalso
      have hall := (conflictSearch_eq_none_iff e dest.parent _ _ 1000 1).mp hs
      have := hall i hi
      rw [show 1 + i = i + 1 by omega] at this
      rw [this] at hfree
      exact absurd hfree (by simp)
    · simp only [hs]
      obtain ⟨k, hk, hp, he, hall⟩ := conflictSearch_eq_some e dest.parent _ _ 1000 1 p hs
      refine ⟨k, ?_, ?_, ?_, ?_⟩
      · by_contra hik
        push_neg at hik
        have := hall i (by omega)
        rw [show 1 + i = i + 1 by omega] at this
        rw [this] at hfree
        exact absurd hfree (by simp)
      · rwa [show k + 1 = 1 + k by omega, ← hp]
      · intro m hm
        have := hall m hm
        rwa [show 1 + m = m + 1 by omega] at this
      · rw [hp]
        congr 1
        omega
  · intro h hall
    simp only [handle_filename_conflict, h]
    rw [if_neg (by simp)]
    have hs : conflictSearch e dest.parent (String.mk (stemL dest.name.data))
        (String.mk (nameSuffixL dest.name.data)) 1 1000 = none := by
      apply (conflictSearch_eq_none_iff e dest.parent _ _ 1000 1).mpr
      intro k hk
      have := hall k hk
      rwa [show k + 1 = 1 + k by omega] at this
    simp only [hs]

/-- Destination used in the conflict-resolution witness scenario. -/
def c6Dest : PPath := ⟨"Organized_Files/PDFs", "report.pdf"⟩

/-- Existence oracle of the witness scenario: the desired name and its
    first numbered variant are taken. -/
def c6Exists : PPath → Bool :=
  fun p => decide (p = c6Dest ∨ p = numberedCandidate "Organized_Files/PDFs" "report" ".pdf" 1)

/-- Witness for C6: with `report.pdf` and `report_1.pdf` taken, the
    resolver picks the first available numbered candidate. -/
theorem handle_filename_conflict_spec_witness :
    ∃ j, j ≤ 1
      ∧ c6Exists (numberedCandidate "Organized_Files/PDFs" "report" ".pdf" (j + 1)) = false
      ∧ (∀ m, m < j →
          c6Exists (numberedCandidate "Organized_Files/PDFs" "report" ".pdf" (m + 1)) = true)
      ∧ handle_filename_conflict c6Exists "20250101_000000" c6Dest
          = numberedCandidate "Organized_Files/PDFs" "report" ".pdf" (j + 1) := by
  exact (handle_filename_conflict_spec c6Exists "20250101_000000" c6Dest).2.2.1
    (by decide) 1 (by decide) (by decide)

/- ### Claims C7 and C10: the audit boundary -/

theorem fsSize_cons (e : String × Nat) (t : Fs) (p : String) :
    fsSize (e :: t) p = if e.1 = p then some e.2 else fsSize t p := by
  rw [fsSize, List.find?_cons]
  by_cases h : e.1 = p
  · simp [h]
  · simp [h, fsSize]

theorem fsSize_fsErase_self (fs : Fs) (p : String) : fsSize (fsErase fs p) p = none := by
  have h : List.find? (fun e => decide (e.1 = p)) (fsErase fs p) = none := by
    apply List.find?_eq_none.mpr
    intro e he
    rw [fsErase, List.mem_filter] at he
    simpa using he.2
  rw [fsSize, h]
  rfl

theorem fsSize_fsErase_ne (fs : Fs) (p q : String) (h : p ≠ q) :
    fsSize (fsErase fs q) p = fsSize fs p := by
  induction fs with
  | nil => rfl
  | cons e t ih =>
    rw [fsErase, List.filter_cons]
    by_cases he : e.1 = q
    · rw [if_neg (by simp [he])]
      rw [show List.filter (fun x => decide (x.1 ≠ q)) t = fsErase t q from rfl, ih]
      rw [fsSize_cons, if_neg (fun hep : e.1 = p => h (hep ▸ he ▸ rfl))]
    · rw [if_pos (by simp [he])]
      rw [show List.filter (fun x => decide (x.1 ≠ q)) t = fsErase t q from rfl]
      rw [fsSize_cons, fsSize_cons]
      by_cases hep : e.1 = p
      · simp [hep]
      · simp [hep, ih]

theorem fsSize_move_source_none (fs : Fs) (src dst : String) (n : Nat) (h : dst ≠ src) :
    fsSize (fsInsert (fsErase fs src) dst n) src = none := by
  rw [fsInsert, fsSize_cons, if_neg h]
  rw [fsSize_fsErase_ne _ _ _ (fun hsd => h hsd.symm)]
  exact fsSize_fsErase_self fs src

/-- Claim C7: the audit collaborator's `record` operation is attempted
    exactly once per successful relocation (when the collaborator accepts
    the connection), never for a failed or filtered-out relocation, and a
    collaborator failure changes neither the resulting filesystem nor the
    relocation outcome (the `try/except` in `log_file_movement` swallows
    it, so the move is not rolled back and processing completes). -/
theorem audit_record_discipline (cfg : Config) (audit : Audit) (ts : String) (fs : Fs)
    (path kind : String) :
    ((process_file cfg audit ts fs path kind).2.2.isSome = true →
        audit.connectOk = true →
        (process_file cfg audit ts fs path kind).2.1.length = 1)
  ∧ ((process_file cfg audit ts fs path kind).2.2 = none →
        (process_file cfg audit ts fs path kind).2.1 = [])
  ∧ (∀ audit' : Audit,
        (process_file cfg audit' ts fs path kind).1
            = (process_file cfg audit ts fs path kind).1
      ∧ (process_file cfg audit' ts fs path kind).2.2
            = (process_file cfg audit ts fs path kind).2.2) := by
  cases hsp : should_process_file cfg fs path with
  | false => simp [process_file, hsp]
  | true =>
    rcases hmv : move_file cfg ts fs (get_file_tags path) path with ⟨fs2, succ, dest⟩
    cases succ with
    | false => simp [process_file, hsp, hmv]
    | true =>
      refine ⟨?_, ?_, ?_⟩
      · intro _ hconn
        simp [process_file, hsp, hmv, log_file_movement, hconn]
      · intro hnone
        simp [process_file, hsp, hmv] at hnone
      · intro audit'
        simp [process_file, hsp, hmv]

/-- Filesystem of the concrete audit scenario: one five-byte invoice. -/
def exampleFs : Fs := [("w/invoice_2023.pdf", 5)]

/-- Audit collaborator that accepts the connection but whose record call
    raises (the failure is swallowed by `log_file_movement`). -/
def exampleAudit : Audit := ⟨true, true⟩

/-- Witness for C7: the successful relocation of the invoice invokes the
    audit record exactly once. -/
theorem audit_record_discipline_witness :
    (process_file exampleConfig exampleAudit "ts" exampleFs
      "w/invoice_2023.pdf" "created").2.1.length = 1 :=
  (audit_record_discipline exampleConfig exampleAudit "ts" exampleFs
      "w/invoice_2023.pdf" "created").1 (by decide) rfl

/-- Claim C10: the size handed to the audit record is re-read from the
    original source path after the move; in particular whenever the
    source path no longer exists at logging time (always, once the move
    target differs from the source) the recorded `size_bytes` is 0. -/
theorem audit_size_read_after_move (cfg : Config) (audit : Audit) (ts : String)
    (fs : Fs) (path kind dest : String)
    (hsucc : (process_file cfg audit ts fs path kind).2.2 = some dest)
    (hconn : audit.connectOk = true) :
    ∃ rec : MoveRecord,
      (process_file cfg audit ts fs path kind).2.1 = [rec]
      ∧ rec.file_size = (fsSize (process_file cfg audit ts fs path kind).1 path).getD 0
      ∧ (dest ≠ path → fsSize (process_file cfg audit ts fs path kind).1 path = none
          ∧ rec.file_size = 0) := by
  cases hsp : should_process_file cfg fs path with
  | false => simp [process_file, hsp] at hsucc
  | true =>
    cases hsz : fsSize fs path with
    | none => simp [process_file, hsp, move_file, hsz] at hsucc
    | some sz =>
      simp only [process_file, hsp, move_file, hsz, Bool.false_eq_true, if_false,
        if_true, log_file_movement, hconn, if_pos] at hsucc ⊢
      rcases Option.some.inj hsucc with rfl
      refine ⟨_, rfl, rfl, ?_⟩
      intro hne
      constructor
      · exact fsSize_move_source_none fs path _ sz hne
      · rw [fsSize_move_source_none fs path _ sz hne]
        rfl

/-- Witness for C10: in the invoice scenario the single audit record
    carries `size_bytes = 0`, because the source path is gone when the
    size is read. -/
theorem audit_size_read_after_move_witness :
    ∃ rec : MoveRecord,
      (process_file exampleConfig exampleAudit "ts" exampleFs
        "w/invoice_2023.pdf" "created").2.1 = [rec]
      ∧ rec.file_size = 0 := by
  obtain ⟨rec, h1, _h2, h3⟩ := audit_size_read_after_move exampleConfig exampleAudit "ts"
    exampleFs "w/invoice_2023.pdf" "created" "Organized_Files/Finance_Files/invoice_2023.pdf"
    (by decide) rfl
  exact ⟨rec, h1, (h3 (by decide)).2⟩

/- ### Claim C9: classification is invariant under filename case -/

theorem pyLowerChar_eq_dot (c : Char) : pyLowerChar c = '.' ↔ c = '.' := by
  unfold pyLowerChar
  split <;> simp_all

theorem pyLowerChar_eq_slash (c : Char) : pyLowerChar c = '/' ↔ c = '/' := by
  unfold pyLowerChar
  split <;> simp_all

theorem lastIndexOf_lowerL (d : Char) (hd : ∀ c, pyLowerChar c = d ↔ c = d) :
    ∀ l : List Char, lastIndexOf d (lowerL l) = lastIndexOf d l := by
  intro l
  induction l with
  | nil => rfl
  | cons x xs ih =>
    show lastIndexOf d (pyLowerChar x :: lowerL xs) = lastIndexOf d (x :: xs)
    simp only [lastIndexOf]
    rw [ih]
    cases h : lastIndexOf d xs with
    | some i => simp only [h]
    | none =>
      simp only [h]
      by_cases hx : x = d
      · rw [if_pos ((hd x).mpr hx), if_pos hx]
      · rw [if_neg (fun hc => hx ((hd x).mp hc)), if_neg hx]

theorem splitOnChar_ne_nil (sep : Char) : ∀ l : List Char, splitOnChar sep l ≠ [] := by
  intro l
  cases l with
  | nil => simp [splitOnChar]
  | cons c cs =>
    simp only [splitOnChar]
    cases h : splitOnChar sep cs with
    | nil => simp
    | cons g gs => by_cases hc : c = sep <;> simp [hc]

theorem splitOnChar_lowerL :
    ∀ l : List Char, splitOnChar '/' (lowerL l) = (splitOnChar '/' l).map lowerL := by
  intro l
  induction l with
  | nil => rfl
  | cons c cs ih =>
    show splitOnChar '/' (pyLowerChar c :: lowerL cs) = _
    by_cases hc : c = '/'
    · subst hc
      simp only [splitOnChar, ih, show pyLowerChar '/' = '/' from rfl]
      rcases h : splitOnChar '/' cs with _ | ⟨g, gs⟩
      · exact absurd h (splitOnChar_ne_nil '/' cs)
      · simp [h, lowerL]
    · have hpc : pyLowerChar c ≠ '/' := fun h2 => hc ((pyLowerChar_eq_slash c).mp h2)
      simp only [splitOnChar, ih]
      rcases h : splitOnChar '/' cs with _ | ⟨g, gs⟩
      · exact absurd h (splitOnChar_ne_nil '/' cs)
      · simp [h, hpc, hc, lowerL]

theorem lowerL_eq_dot_singleton (g : List Char) : lowerL g = ['.'] ↔ g = ['.'] := by
  cases g with
  | nil => simp [lowerL]
  | cons b t =>
    cases t with
    | nil => simp [lowerL, pyLowerChar_eq_dot b]
    | cons b2 t2 => simp [lowerL]

theorem keepPart_lowerL (g : List Char) : keepPart (lowerL g) = keepPart g := by
  rw [keepPart, keepPart, decide_eq_decide]
  constructor
  · rintro ⟨h1, h2⟩
    refine ⟨?_, ?_⟩
    · intro hg; rw [hg] at h1; exact h1 rfl
    · intro hg; rw [hg] at h2; exact h2 rfl
  · rintro ⟨h1, h2⟩
    refine ⟨?_, ?_⟩
    · intro hg; exact h1 (by simpa [lowerL] using hg)
    · intro hg; exact h2 ((lowerL_eq_dot_singleton g).mp hg)

theorem getLastD_map_lowerL :
    ∀ (gs : List (List Char)) (d : List Char),
      (gs.map lowerL).getLastD (lowerL d) = lowerL (gs.getLastD d) := by
  intro gs
  induction gs with
  | nil => intro d; rfl
  | cons g gs ih =>
    intro d
    rw [List.map_cons, List.getLastD_cons, List.getLastD_cons]
    exact ih g

theorem nameSuffixL_lowerL (n : List Char) :
    nameSuffixL (lowerL n) = lowerL (nameSuffixL n) := by
  simp only [nameSuffixL]
  rw [lastIndexOf_lowerL '.' pyLowerChar_eq_dot]
  cases h : lastIndexOf '.' n with
  | none => rfl
  | some i =>
    simp only [h]
    rw [show (lowerL n).length = n.length from by simp [lowerL]]
    by_cases hc : 0 < i ∧ i < n.length - 1
    · simp only [hc, if_true, and_self]
      exact (List.map_drop pyLowerChar n i).symm
    · simp [hc, lowerL]

theorem pathlibNameL_lowerL (l : List Char) :
    pathlibNameL (lowerL l) = lowerL (pathlibNameL l) := by
  rw [pathlibNameL, pathlibNameL, splitOnChar_lowerL l, List.filter_map]
  rw [List.filter_congr (fun g _ => by
    show (keepPart ∘ lowerL) g = keepPart g
    simp only [Function.comp]
    exact keepPart_lowerL g)]
  have h := getLastD_map_lowerL ((splitOnChar '/' l).filter keepPart) []
  rw [show lowerL [] = [] from rfl] at h
  exact h

theorem pathSuffixL_lowerL (l : List Char) :
    pathSuffixL (lowerL l) = lowerL (pathSuffixL l) := by
  rw [pathSuffixL, pathSuffixL, pathlibNameL_lowerL, nameSuffixL_lowerL]

theorem osBasenameL_lowerL (l : List Char) :
    osBasenameL (lowerL l) = lowerL (osBasenameL l) := by
  simp only [osBasenameL]
  rw [lastIndexOf_lowerL '/' pyLowerChar_eq_slash]
  cases h : lastIndexOf '/' l with
  | none => rfl
  | some i =>
    simp only [h]
    exact (List.map_drop pyLowerChar l (i + 1)).symm

/-- Claim C9: classification is a function of the lowercased filename —
    two paths with the same lowercasing get the same category and the
    same tag list — and an extension missing from the table yields the
    catch-all category `"Other"`. -/
theorem classification_case_invariant (s t : String) (h : strLower s = strLower t) :
    get_file_type s = get_file_type t
  ∧ get_file_tags s = get_file_tags t
  ∧ (∀ u : String,
      lookupTable file_type_mapping (String.mk (lowerL (pathSuffixL u.data))) = none →
      get_file_type u = "Other") := by
  have hdata : lowerL s.data = lowerL t.data := by
    have h2 := congrArg String.data h
    simpa [strLower] using h2
  have hsuffix : lowerL (pathSuffixL s.data) = lowerL (pathSuffixL t.data) := by
    rw [← pathSuffixL_lowerL, ← pathSuffixL_lowerL, hdata]
  have hbase : lowerL (osBasenameL s.data) = lowerL (osBasenameL t.data) := by
    rw [← osBasenameL_lowerL, ← osBasenameL_lowerL, hdata]
  refine ⟨?_, ?_, ?_⟩
  · simp only [get_file_type]
    rw [hsuffix]
  · simp only [get_file_tags]
    rw [hsuffix, hbase]
  · intro u hu
    simp only [get_file_type]
    rw [hu]
    rfl

/-- Witness for C9: `"A.PDF"` and `"a.pdf"` classify identically, and an
    unknown extension falls into `"Other"`. -/
theorem classification_case_invariant_witness :
    get_file_type "A.PDF" = get_file_type "a.pdf"
  ∧ get_file_tags "A.PDF" = get_file_tags "a.pdf"
  ∧ get_file_type "x.zzz" = "Other" := by
  have h := classification_case_invariant "A.PDF" "a.pdf" rfl
  exact ⟨h.1, h.2.1, h.2.2 "x.zzz" rfl⟩
